import Mathlib

/-!
Shallow embedding of the ygrep code-search engine (crates/ygrep-core and
crates/ygrep-cli) and proofs about its specified behavior.

Modelling conventions:
* Rust `f32` scores, weights and distances are modelled as `ℚ`.
* Rust strings are Lean `String`s; `char::is_alphanumeric` and
  `to_lowercase` are modelled by `Char.isAlphanum` / `Char.toLower`
  (both sides of every comparison go through the same model function).
* The tantivy retrieval step (BM25 ranking) and the HNSW graph search are
  external libraries; their outputs are universally quantified parameters.
* Stateful structures (symlink resolver, vector index, embedding cache)
  are modelled by explicit state passing.
-/

namespace Ygrep

/-- Split a character list at every separator character; pieces may be
empty (the semantics of Rust `str::split` on a char predicate). -/
def charSplitAux (p : Char → Bool) : List Char → List Char → List (List Char)
  | [], acc => [acc.reverse]
  | c :: rest, acc =>
    if p c then acc.reverse :: charSplitAux p rest []
    else charSplitAux p rest (c :: acc)

/-- Split a character list on a character predicate. -/
def charSplit (p : Char → Bool) (l : List Char) : List (List Char) :=
  charSplitAux p l []

/-- Model of Rust `str::to_lowercase` (character-wise lowercasing). -/
def toLowerStr (s : String) : String :=
  String.mk (s.toList.map Char.toLower)

/-- Substring containment on character lists. -/
def charContains (hay pat : List Char) : Bool :=
  decide (pat <:+: hay)

/-- Model of Rust `str::contains(&str)`: substring containment. -/
def strContains (hay pat : String) : Bool :=
  charContains hay.toList pat.toList

/-- Case-insensitive literal containment, as the searcher computes it:
`content.to_lowercase().contains(&query.to_lowercase())`. -/
def containsCI (content query : String) : Bool :=
  strContains (toLowerStr content) (toLowerStr query)

/-- Model of Rust `str::lines` on characters: split on newline, drop one
trailing empty piece produced by a trailing newline, strip one trailing
carriage return per line. -/
def charLines (s : String) : List (List Char) :=
  let parts := charSplit (fun c => c == '\n') s.toList
  let parts := if parts.getLast? = some [] then parts.dropLast else parts
  parts.map (fun l => if l.getLast? = some '\r' then l.dropLast else l)

/-- Model of Rust `str::lines`. -/
def rustLines (s : String) : List String :=
  (charLines s).map String.mk

/-- Join lines with newlines (Rust `join("\n")`). -/
def joinLines (lines : List String) : String :=
  String.mk (List.intercalate ['\n'] (lines.map String.toList))

/-- A stored tantivy document, restricted to the fields the searchers read
(`extract_text` / `extract_u64` with `unwrap_or` defaults applied). -/
structure StoredDoc where
  doc_id : String
  path : String
  content : String
  line_start : Nat
  line_end : Nat
  chunk_id : String
deriving Repr, DecidableEq

/-- The `SearchHit` result record from `search/results.rs`. -/
structure SearchHit where
  path : String
  line_start : Nat
  line_end : Nat
  snippet : String
  score : ℚ
  is_chunk : Bool
  doc_id : String
deriving Repr, DecidableEq

/-- The `SearchResult` record (`query_time_ms` is wall-clock time and is
not modelled). -/
structure SearchResult where
  total : Nat
  hits : List SearchHit
deriving Repr, DecidableEq

/-- The search-relevant part of `SearchConfig` from `config.rs`. -/
structure SearchConfig where
  default_limit : Nat
  max_limit : Nat
  bm25_weight : ℚ
  vector_weight : ℚ
deriving Repr

/-- Query tokenization in `Searcher::search`: split on any character that
is neither alphanumeric nor an underscore, and drop empty pieces. -/
def searchTerms (query : String) : List String :=
  ((charSplit (fun c => !(c.isAlphanum || c == '_')) query.toList).filter
    (fun l => !l.isEmpty)).map String.mk

/-- The searcher's `create_relevant_snippet` from `search/searcher.rs`:
find the first line containing any whitespace-separated query token and
return up to `maxLines` lines around it (2 lines of context before). -/
def create_relevant_snippet (content query : String) (maxLines : Nat) : String :=
  let lines := rustLines content
  let query_lower := toLowerStr query
  let query_terms := (charSplit Char.isWhitespace query_lower.toList).filter
    (fun l => !l.isEmpty)
  let matching := (List.range lines.length).filter (fun i =>
    query_terms.any (fun t => charContains (toLowerStr (lines.getD i "")).toList t))
  match matching with
  | [] => joinLines (lines.take maxLines)
  | first_match :: _ =>
    let context_before := 2
    let context_after := maxLines - (context_before + 1)
    let start := first_match - context_before
    let stop := min (first_match + context_after + 1) lines.length
    joinLines ((lines.drop start).take (stop - start))

/-- Construction of one `SearchHit` in the body of the result loop of
`Searcher::search` (score normalization and snippet creation). -/
def mkSearcherHit (query : String) (maxScore score : ℚ) (d : StoredDoc) : SearchHit :=
  { path := d.path
    line_start := d.line_start
    line_end := d.line_end
    snippet := create_relevant_snippet d.content query 10
    score := if 0 < maxScore then score / maxScore else 0
    is_chunk := !(d.chunk_id == "")
    doc_id := d.doc_id }

/-- The collection loop of `Searcher::search`: walk the retrieved documents
in score order, skip any whose stored content does not contain the query
as a case-insensitive substring, and stop once `limit` hits are kept. -/
def collectHits (query : String) (maxScore : ℚ) :
    List (ℚ × StoredDoc) → Nat → List SearchHit
  | _, 0 => []
  | [], _ + 1 => []
  | (score, d) :: rest, remaining + 1 =>
    if containsCI d.content query then
      mkSearcherHit query maxScore score d :: collectHits query maxScore rest remaining
    else
      collectHits query maxScore rest (remaining + 1)

/-- Model of `Searcher::search` (`search/searcher.rs`). `topDocs` stands for
the list returned by tantivy's `TopDocs::with_limit(10 * limit)` retrieval:
score-descending `(score, document)` pairs drawn from the index. -/
def Searcher.search (cfg : SearchConfig) (query : String) (limit : Option Nat)
    (topDocs : List (ℚ × StoredDoc)) : SearchResult :=
  let lim := min (limit.getD cfg.default_limit) cfg.max_limit
  if (searchTerms query).isEmpty then
    { total := 0, hits := [] }
  else
    let maxScore := ((topDocs.head?).map Prod.fst).getD 1
    let hits := collectHits query maxScore topDocs lim
    { total := hits.length, hits := hits }

/-! ## Chunker (`index/writer.rs`, `Indexer::index_chunks`) -/

/-- One emitted chunk: its index, 1-based line range, and content lines
(the source joins them with a newline for the chunk document). -/
structure Chunk where
  chunk_num : Nat
  line_start : Nat
  line_end : Nat
  content : List String
deriving Repr, DecidableEq

/-- The `while start < lines.len()` loop of `Indexer::index_chunks`,
with explicit fuel (any fuel of at least `lines.length - start + 1`
iterations reproduces the loop exactly, since `start` grows by
`chunkSize - overlap ≥ 1` per iteration when `overlap < chunkSize`). -/
def chunkLoop (lines : List String) (chunkSize overlap : Nat) :
    Nat → Nat → Nat → List Chunk
  | 0, _, _ => []
  | fuel + 1, start, chunkNum =>
    if start < lines.length then
      let stop := min (start + chunkSize) lines.length
      { chunk_num := chunkNum
        line_start := start + 1
        line_end := stop
        content := (lines.drop start).take (stop - start) } ::
        chunkLoop lines chunkSize overlap fuel (start + (chunkSize - overlap)) (chunkNum + 1)
    else []

/-- Model of `Indexer::index_chunks`: no chunks when the file fits in one
window, otherwise the windowed chunk list. -/
def index_chunks (lines : List String) (chunkSize overlap : Nat) : List Chunk :=
  if lines.length ≤ chunkSize then []
  else chunkLoop lines chunkSize overlap (lines.length + 1) 0 0

/-- The `(line_start, line_end)` ranges of the emitted chunks. -/
def chunkRanges (lines : List String) (chunkSize overlap : Nat) : List (Nat × Nat) :=
  (index_chunks lines chunkSize overlap).map (fun c => (c.line_start, c.line_end))

/-- Number of lines shared by two 1-based inclusive line ranges. -/
def sharedLines (r₁ r₂ : Nat × Nat) : Nat :=
  (Finset.Icc r₁.1 r₁.2 ∩ Finset.Icc r₂.1 r₂.2).card

/-! ## Error type (`error.rs`, the variants the modelled code produces) -/

/-- Abstract error values produced by the modelled operations. -/
inductive YgrepErr where
  | dimensionMismatch (expected got : Nat)
  | symlinkDepthExceeded (path : String)
  | invalidPath (path : String)
  | embedFailed
deriving Repr, DecidableEq

/-! ## Vector index (`index/vector.rs`) -/

/-- A stored vector with its document ID (`StoredVector`). -/
structure StoredVector where
  doc_id : String
  vector : List ℚ
deriving Repr, DecidableEq

/-- The persistent state of `VectorIndex` (the HNSW graph itself is the
external `hnsw_rs` library; its search output is a parameter below). -/
structure VectorIndexState where
  dimension : Nat
  vectors : List StoredVector
deriving Repr, DecidableEq

/-- The state made by `VectorIndex::new`: fixed dimension, no vectors. -/
def VectorIndex.new (dimension : Nat) : VectorIndexState :=
  { dimension := dimension, vectors := [] }

/-- Model of `VectorIndex::insert`: reject on dimension mismatch, else
append and return the id (the array length before the push). -/
def VectorIndex.insert (st : VectorIndexState) (doc_id : String) (embedding : List ℚ) :
    Except YgrepErr (Nat × VectorIndexState) :=
  if embedding.length ≠ st.dimension then
    .error (.dimensionMismatch st.dimension embedding.length)
  else
    .ok (st.vectors.length,
      { st with vectors := st.vectors ++ [{ doc_id := doc_id, vector := embedding }] })

/-- Model of `VectorIndex::len`. -/
def VectorIndex.len (st : VectorIndexState) : Nat :=
  st.vectors.length

/-- Model of `VectorIndex::is_empty` (`len() == 0`). -/
def VectorIndex.is_empty (st : VectorIndexState) : Bool :=
  VectorIndex.len st == 0

/-- Model of `VectorIndex::search`. `hnsw` stands for the graph search of
the external `hnsw_rs` crate, given the query, `k` and `ef_search`; it
returns `(d_id, distance)` pairs which are then resolved against the
stored-vector array. -/
def VectorIndex.search (st : VectorIndexState) (query : List ℚ) (k : Nat)
    (hnsw : List ℚ → Nat → Nat → List (Nat × ℚ)) :
    Except YgrepErr (List (Nat × ℚ × String)) :=
  if query.length ≠ st.dimension then
    .error (.dimensionMismatch st.dimension query.length)
  else if st.vectors.isEmpty then
    .ok []
  else
    let ef_search := max k 30
    let neighbors := hnsw query k ef_search
    .ok (neighbors.filterMap (fun n =>
      (st.vectors.get? n.1).map (fun sv => (n.1, n.2, sv.doc_id))))

/-- A sequence of `insert` calls, propagating the first error. -/
def VectorIndex.insertAll (st : VectorIndexState) :
    List (String × List ℚ) → Except YgrepErr VectorIndexState
  | [] => .ok st
  | e :: rest =>
    match VectorIndex.insert st e.1 e.2 with
    | .error err => .error err
    | .ok (_, st') => VectorIndex.insertAll st' rest

/-! ## Embedding cache (`embeddings/cache.rs`) -/

/-- The LRU cache state: capacity in entries and the `(key, embedding)`
entries in most-recently-used-first order. -/
structure CacheState where
  capacity : Nat
  entries : List (Nat × List ℚ)
deriving Repr, DecidableEq

/-- Model of `EmbeddingCache::new`: entry count is
`capacity_mb * 2^20 / (dimension * 4)` with lower bound 100. -/
def EmbeddingCache.new (capacity_mb dimension : Nat) : CacheState :=
  { capacity := max ((capacity_mb * 1024 * 1024) / (dimension * 4)) 100
    entries := [] }

/-- Cache lookup without the LRU bump (the association itself). -/
def cacheFind (st : CacheState) (key : Nat) : Option (List ℚ) :=
  (st.entries.find? (fun e => e.1 == key)).map (fun e => e.2)

/-- Model of `EmbeddingCache::get`: on a hit the entry moves to the
most-recently-used position. -/
def cacheGet (st : CacheState) (key : Nat) : Option (List ℚ) × CacheState :=
  match st.entries.find? (fun e => e.1 == key) with
  | some e => (some e.2, { st with entries := e :: st.entries.filter (fun x => x.1 != key) })
  | none => (none, st)

/-- Model of `LruCache::put`: insert at the most-recently-used position,
replacing any entry with the same key and evicting beyond capacity. -/
def cachePut (st : CacheState) (key : Nat) (v : List ℚ) : CacheState :=
  { st with entries := ((key, v) :: st.entries.filter (fun x => x.1 != key)).take st.capacity }

/-- Model of `EmbeddingCache::get_or_insert`. `hash` stands for `xxh3_64`
over the text bytes; `computed` is the value of the `compute()` closure,
only stored (and only relevant) on a miss. -/
def EmbeddingCache.get_or_insert (hash : String → Nat) (st : CacheState) (text : String)
    (computed : List ℚ) : List ℚ × CacheState :=
  match cacheGet st (hash text) with
  | (some v, st') => (v, st')
  | (none, st') => (computed, cachePut st' (hash text) computed)

/-! ## Indexer embedding pipeline (`index/writer.rs`, `Indexer::index_file`) -/

/-- The embedding fallback used at every `embed` call site:
`model.embed(text).unwrap_or_else(|_| vec![0.0; 384])`. -/
def embedOrZero (embed : String → Except YgrepErr (List ℚ)) (text : String) : List ℚ :=
  match embed text with
  | .ok v => v
  | .error _ => List.replicate 384 0

/-- One `cache.get_or_insert(text, || model.embed(text).unwrap_or_else(..))`
step, shared by the indexer (document and chunk texts) and the hybrid
searcher (query text). -/
def embedViaCache (hash : String → Nat) (embed : String → Except YgrepErr (List ℚ))
    (st : CacheState) (text : String) : List ℚ × CacheState :=
  EmbeddingCache.get_or_insert hash st text (embedOrZero embed text)

/-- The chunk-embedding loop at the end of `Indexer::index_file`. -/
def chunkEmbedLoop (hash : String → Nat) (embed : String → Except YgrepErr (List ℚ)) :
    VectorIndexState → CacheState → List (String × String) →
    Except YgrepErr (VectorIndexState × CacheState)
  | vecSt, cache, [] => .ok (vecSt, cache)
  | vecSt, cache, (chunk_id, chunk_content) :: rest =>
    let step := embedViaCache hash embed cache chunk_content
    match VectorIndex.insert vecSt chunk_id step.1 with
    | .error err => .error err
    | .ok (_, vecSt') => chunkEmbedLoop hash embed vecSt' step.2 rest

/-- The embedding section of `Indexer::index_file` (lines 147-163): embed
the full document, insert it, then embed and insert every chunk. -/
def indexFileEmbeddings (hash : String → Nat) (embed : String → Except YgrepErr (List ℚ))
    (vecSt : VectorIndexState) (cache : CacheState) (doc_id content : String)
    (chunks : List (String × String)) : Except YgrepErr (VectorIndexState × CacheState) :=
  let step := embedViaCache hash embed cache content
  match VectorIndex.insert vecSt doc_id step.1 with
  | .error err => .error err
  | .ok (_, vecSt') => chunkEmbedLoop hash embed vecSt' step.2 chunks

/-! ## File extension extraction (`index/writer.rs` lines 104-107) -/

/-- Characters after the last dot, paired with the characters before it;
`none` when the list has no dot. -/
def splitLastDot : List Char → Option (List Char × List Char)
  | [] => none
  | c :: rest =>
    match splitLastDot rest with
    | some (pre, post) => some (c :: pre, post)
    | none => if c = '.' then some ([], rest) else none

/-- Characters after the last slash; `none` when the list has no slash. -/
def afterLastSlash : List Char → Option (List Char)
  | [] => none
  | c :: rest =>
    match afterLastSlash rest with
    | some post => some post
    | none => if c = '/' then some rest else none

/-- The final path component (Rust `Path::file_name`, for ordinary file
paths). -/
def fileNameChars (path : String) : List Char :=
  (afterLastSlash path.toList).getD path.toList

/-- Model of Rust `Path::extension`: the part of the file name after its
last dot, unless there is no dot or the only characters before that dot
are empty (hidden files like `.foo` have no extension). -/
def rustExtension (path : String) : Option String :=
  match splitLastDot (fileNameChars path) with
  | none => none
  | some (pre, post) => if pre = [] then none else some (String.mk post)

/-- The full document written by `Indexer::index_file`. -/
structure FullDoc where
  doc_id : String
  path : String
  workspace : String
  content : String
  mtime : Nat
  size : Nat
  extension : String
  line_start : Nat
  line_end : Nat
  chunk_id : String
  parent_doc : String
deriving Repr, DecidableEq

/-- The document construction in `Indexer::index_file` (lines 92-131).
`docIdOf` stands for `format!("{:016x}", xxh3_64(content))`. -/
def Indexer.buildFileDoc (docIdOf : String → String) (workspace_root rel_path path content : String)
    (size mtime : Nat) : FullDoc :=
  { doc_id := docIdOf content
    path := rel_path
    workspace := workspace_root
    content := content
    mtime := mtime
    size := size
    extension := (rustExtension path).getD ""
    line_start := 1
    line_end := (rustLines content).length
    chunk_id := ""
    parent_doc := "" }

/-! ## Hybrid searcher (`search/hybrid.rs`) -/

/-- The intermediate `RankedResult` record. -/
structure RankedResult where
  doc_id : String
  path : String
  content : String
  line_start : Nat
  line_end : Nat
  is_chunk : Bool
  rank : Nat
  score : ℚ
deriving Repr, DecidableEq

/-- The `DocInfo` record produced by `lookup_by_doc_id`. -/
structure DocInfo where
  path : String
  content : String
  line_start : Nat
  line_end : Nat
  is_chunk : Bool
deriving Repr, DecidableEq

/-- Model of `HybridSearcher::bm25_search` on the tantivy retrieval output
(`topDocs`): assign 1-based ranks in retrieval order. The quoted phrase
query only shapes what tantivy retrieves, which is abstracted into
`topDocs`; note there is no literal post-filter on this path. -/
def HybridSearcher.bm25_results (topDocs : List (ℚ × StoredDoc)) : List RankedResult :=
  topDocs.enum.map (fun p =>
    { doc_id := p.2.2.doc_id
      path := p.2.2.path
      content := p.2.2.content
      line_start := p.2.2.line_start
      line_end := p.2.2.line_end
      is_chunk := !(p.2.2.chunk_id == "")
      rank := p.1 + 1
      score := p.2.1 })

/-- The result-building loop of `HybridSearcher::vector_search`: ranks are
assigned from the neighbor position (before the lookup filter), and the
distance is reported as `1 / (1 + d)`. -/
def HybridSearcher.vector_results (neighbors : List (Nat × ℚ × String))
    (lookup : String → Option DocInfo) : List RankedResult :=
  neighbors.enum.filterMap (fun p =>
    (lookup p.2.2.2).map (fun info =>
      { doc_id := p.2.2.2
        path := info.path
        content := info.content
        line_start := info.line_start
        line_end := info.line_end
        is_chunk := info.is_chunk
        rank := p.1 + 1
        score := 1 / (1 + p.2.2.1) }))

/-- Model of `HybridSearcher::vector_search`: empty when the vector index
is empty, else embed the query through the cache and search the index.
`lookup` stands for `lookup_by_doc_id` against the inverted index. -/
def HybridSearcher.vector_search (hash : String → Nat)
    (embed : String → Except YgrepErr (List ℚ)) (cache : CacheState) (query : String)
    (vecSt : VectorIndexState) (hnsw : List ℚ → Nat → Nat → List (Nat × ℚ))
    (lookup : String → Option DocInfo) (limit : Nat) : Except YgrepErr (List RankedResult) :=
  if vecSt.vectors.isEmpty then .ok []
  else
    let query_embedding := (embedViaCache hash embed cache query).1
    match VectorIndex.search vecSt query_embedding limit hnsw with
    | .error err => .error err
    | .ok neighbors => .ok (HybridSearcher.vector_results neighbors lookup)

/-- A fused per-document score (`FusedScore`). -/
structure FusedScore where
  result : RankedResult
  bm25_rrf : ℚ
  vector_rrf : ℚ
deriving Repr, DecidableEq

/-- The RRF constant `K = 60`. -/
def rrfK : ℚ := 60

/-- One step of the first fusion loop: set the BM25 RRF contribution for
this doc_id, inserting a fresh entry when absent. The source keeps the
entries in a `HashMap`, whose value iteration order is unspecified; the
model keeps first-insertion order, and the theorems below only use it
through score-sorting, which with positive weights determines the final
order regardless of the intermediate arrangement. -/
def upsertBM25 (w : ℚ) (acc : List FusedScore) (r : RankedResult) : List FusedScore :=
  if acc.any (fun f => f.result.doc_id == r.doc_id) then
    acc.map (fun f =>
      if f.result.doc_id == r.doc_id then { f with bm25_rrf := w / (rrfK + r.rank) } else f)
  else
    acc ++ [{ result := r, bm25_rrf := w / (rrfK + r.rank), vector_rrf := 0 }]

/-- One step of the second fusion loop: set the vector RRF contribution. -/
def upsertVec (w : ℚ) (acc : List FusedScore) (r : RankedResult) : List FusedScore :=
  if acc.any (fun f => f.result.doc_id == r.doc_id) then
    acc.map (fun f =>
      if f.result.doc_id == r.doc_id then { f with vector_rrf := w / (rrfK + r.rank) } else f)
  else
    acc ++ [{ result := r, bm25_rrf := 0, vector_rrf := w / (rrfK + r.rank) }]

/-- The `combined_scores` map after both loops of
`HybridSearcher::reciprocal_rank_fusion`. -/
def rrfCombine (bm25_results vector_results : List RankedResult) (wb wv : ℚ) :
    List FusedScore :=
  vector_results.foldl (upsertVec wv) (bm25_results.foldl (upsertBM25 wb) [])

/-- The hybrid searcher's `create_relevant_snippet`: the first `maxLines`
lines of the content, ignoring the query. -/
def hybridSnippet (content : String) (maxLines : Nat) : String :=
  joinLines ((rustLines content).take maxLines)

/-- Conversion of a fused score to a `SearchHit`: the score is the summed
RRF total and the snippet is built from the stored content. -/
def fusedToHit (f : FusedScore) : SearchHit :=
  { path := f.result.path
    line_start := f.result.line_start
    line_end := f.result.line_end
    snippet := hybridSnippet f.result.content 10
    score := f.bm25_rrf + f.vector_rrf
    is_chunk := f.result.is_chunk
    doc_id := f.result.doc_id }

/-- Descending order on hit scores, as `sort_by(|a, b| b.score.partial_cmp(&a.score))`. -/
def hitLE (a b : SearchHit) : Prop :=
  b.score ≤ a.score

instance : DecidableRel hitLE :=
  fun a b => inferInstanceAs (Decidable (b.score ≤ a.score))

instance : IsTotal SearchHit hitLE :=
  ⟨fun a b => le_total b.score a.score⟩

instance : IsTrans SearchHit hitLE :=
  ⟨fun _ _ _ h₁ h₂ => le_trans h₂ h₁⟩

/-- Model of `HybridSearcher::reciprocal_rank_fusion`: fuse both ranked
lists and sort the hits by descending total score. -/
def HybridSearcher.reciprocal_rank_fusion (bm25_results vector_results : List RankedResult)
    (wb wv : ℚ) : List SearchHit :=
  List.insertionSort hitLE ((rrfCombine bm25_results vector_results wb wv).map fusedToHit)

/-- Model of `HybridSearcher::search`: run both retrievals with fetch
limit `3 * limit`, fuse, and keep the top `limit` hits. `tantivyTop`
stands for the BM25 retrieval as a function of the fetch limit. -/
def HybridSearcher.search (cfg : SearchConfig) (query : String) (limit : Option Nat)
    (tantivyTop : Nat → List (ℚ × StoredDoc)) (hash : String → Nat)
    (embed : String → Except YgrepErr (List ℚ)) (cache : CacheState)
    (vecSt : VectorIndexState) (hnsw : List ℚ → Nat → Nat → List (Nat × ℚ))
    (lookup : String → Option DocInfo) : Except YgrepErr SearchResult :=
  let lim := min (limit.getD cfg.default_limit) cfg.max_limit
  let fetch_limit := lim * 3
  let bm25 := HybridSearcher.bm25_results (tantivyTop fetch_limit)
  match HybridSearcher.vector_search hash embed cache query vecSt hnsw lookup fetch_limit with
  | .error err => .error err
  | .ok vec =>
    let fused := HybridSearcher.reciprocal_rank_fusion bm25 vec cfg.bm25_weight cfg.vector_weight
    let hits := fused.take lim
    .ok { total := hits.length, hits := hits }

/-! ## Symlink resolver (`fs/symlink.rs`) -/

/-- The `SkipReason` enumeration. -/
inductive SkipReason where
  | circularSymlink
  | symlinkNotFollowed
  | brokenSymlink
  | duplicate
  | notFound
deriving Repr, DecidableEq

/-- The `ResolvedPath` result. -/
inductive ResolvedPath where
  | resolved (original canonical : String) (is_symlink : Bool)
  | skipped (reason : SkipReason)
deriving Repr, DecidableEq

/-- A static filesystem model for the resolver. `meta path` is `none` when
`symlink_metadata` fails with NotFound, `some true` for a symlink and
`some false` otherwise. `linkAbs` is the symlink target after the
absolutization step (`read_link` followed by joining a relative target to
the link's parent), `none` when `read_link` fails. `canonical` is
`fs::canonicalize`, `none` on failure. -/
structure FSModel where
  meta : String → Option Bool
  linkAbs : String → Option String
  canonical : String → Option String

/-- Model of `SymlinkResolver::resolve_inner`. The resolver state is the
`visited_canonical` set, modelled as a list of canonical paths. -/
def SymlinkResolver.resolve_inner (fs : FSModel) (follow_symlinks : Bool) (max_depth : Nat)
    (visited : List String) (path : String) (depth : Nat) :
    Except YgrepErr (ResolvedPath × List String) :=
  if max_depth < depth then .error (.symlinkDepthExceeded path)
  else
    match fs.meta path with
    | none => .ok (.skipped .notFound, visited)
    | some true =>
      if !follow_symlinks then .ok (.skipped .symlinkNotFollowed, visited)
      else
        match fs.linkAbs path with
        | none => .ok (.skipped .brokenSymlink, visited)
        | some target =>
          match fs.canonical target with
          | none => .ok (.skipped .brokenSymlink, visited)
          | some canon =>
            if canon ∈ visited then .ok (.skipped .circularSymlink, visited)
            else .ok (.resolved path canon true, canon :: visited)
    | some false =>
      let canon := (fs.canonical path).getD path
      if canon ∈ visited then .ok (.skipped .duplicate, visited)
      else .ok (.resolved path canon false, canon :: visited)

/-- Model of `SymlinkResolver::resolve` (depth starts at 0). -/
def SymlinkResolver.resolve (fs : FSModel) (follow_symlinks : Bool) (max_depth : Nat)
    (visited : List String) (path : String) :
    Except YgrepErr (ResolvedPath × List String) :=
  SymlinkResolver.resolve_inner fs follow_symlinks max_depth visited path 0

/-! ## Search dispatch (`lib.rs` and `ygrep-cli/src/commands/search.rs`) -/

/-- Model of `Workspace::has_semantic_index`: the vector index is nonempty. -/
def Workspace.has_semantic_index (vecSt : VectorIndexState) : Bool :=
  !(VectorIndex.is_empty vecSt)

/-- Which searcher a search call is dispatched to. -/
inductive SearchMode where
  | hybrid
  | bm25
deriving Repr, DecidableEq

/-- The dispatch performed by the CLI search command over the workspace
facade: `use_hybrid = !text_only && workspace.has_semantic_index()`, then
`search_hybrid` or the BM25 `search_filtered`. -/
def cliSearchDispatch (text_only : Bool) (vecSt : VectorIndexState) : SearchMode :=
  let use_hybrid := !text_only && Workspace.has_semantic_index vecSt
  if use_hybrid then .hybrid else .bm25

/-- Analysis helper: the fused entry created by the BM25 loop for a fresh
doc_id with weight w. -/
def rrfEntryB (w : ℚ) (r : RankedResult) : FusedScore :=
  { result := r, bm25_rrf := w / (rrfK + r.rank), vector_rrf := 0 }

/-- Analysis helper: a fused entry carrying both contributions with equal
weight w, as produced when the same ranked list feeds both fusion loops. -/
def rrfEntryFull (w : ℚ) (r : RankedResult) : FusedScore :=
  { result := r, bm25_rrf := w / (rrfK + r.rank), vector_rrf := w / (rrfK + r.rank) }

/-! ## Concrete fixtures used to instantiate the theorems -/

/-- A filesystem with one symlink `link` whose target canonicalizes to
`/c/target`, and the regular file `/c/target`. -/
def linkFS : FSModel :=
  { meta := fun p => if p = "link" then some true
      else if p = "/c/target" then some false else none
    linkAbs := fun p => if p = "link" then some "target" else none
    canonical := fun p => if p = "target" then some "/c/target" else none }

/-- A filesystem with a single regular file `f` canonicalizing to `/c/f`. -/
def regularFS : FSModel :=
  { meta := fun p => if p = "f" then some false else none
    linkAbs := fun _ => none
    canonical := fun p => if p = "f" then some "/c/f" else none }

/-- A one-vector index of dimension 384 (document `d1`). -/
def oneVecIndex : VectorIndexState :=
  { dimension := 384
    vectors := [{ doc_id := "d1", vector := List.replicate 384 0 }] }

/-- An HNSW search stub returning the single stored vector id. -/
def oneVecHnsw : List ℚ → Nat → Nat → List (Nat × ℚ) :=
  fun _ _ _ => [(0, 0)]

/-- An inverted-index lookup resolving `d1` to a document whose content
is `hello world`. -/
def oneVecLookup : String → Option DocInfo :=
  fun s => if s = "d1" then
    some { path := "p.rs", content := "hello world", line_start := 1, line_end := 1,
           is_chunk := false }
  else none

/-- An embedding function that always fails. -/
def failingEmbed : String → Except YgrepErr (List ℚ) :=
  fun _ => .error .embedFailed

/-- An embedding function returning the 384-dimension zero vector. -/
def zeroEmbed : String → Except YgrepErr (List ℚ) :=
  fun _ => .ok (List.replicate 384 0)

/-- A trivial text hash. -/
def constHash : String → Nat :=
  fun _ => 0

/-- One stored document whose content contains the word `hello`. -/
def helloDoc : StoredDoc :=
  { doc_id := "h1", path := "hello.rs", content := "say hello", line_start := 1,
    line_end := 1, chunk_id := "" }

/-- A default search configuration (limits 10/100, weights 1/2). -/
def defaultCfg : SearchConfig :=
  { default_limit := 10, max_limit := 100, bm25_weight := 1/2, vector_weight := 1/2 }


/-- A two-element ranked list with distinct doc_ids and positional ranks. -/
def twoRanked : List RankedResult :=
  [{ doc_id := "a", path := "pa", content := "ca", line_start := 1, line_end := 1,
     is_chunk := false, rank := 1, score := 1 },
   { doc_id := "b", path := "pb", content := "cb", line_start := 1, line_end := 1,
     is_chunk := false, rank := 2, score := 1 }]

/-! ## Theorems -/

/-- C6: for every CLI search call over the workspace facade, the query is
dispatched to the hybrid searcher when the vector index is nonempty and
text-only search is not forced, and to the BM25 searcher otherwise. -/
theorem search_dispatch_iff (text_only : Bool) (vecSt : VectorIndexState) :
    (cliSearchDispatch text_only vecSt = SearchMode.hybrid ↔
      (vecSt.vectors ≠ [] ∧ text_only = false)) ∧
    (cliSearchDispatch text_only vecSt = SearchMode.bm25 ↔
      (vecSt.vectors = [] ∨ text_only = true)) := by
  cases text_only <;> cases h : vecSt.vectors <;>
    simp [cliSearchDispatch, Workspace.has_semantic_index, VectorIndex.is_empty,
      VectorIndex.len, h]

/-- Helper: a run of inserts whose vectors all match the index dimension
succeeds and grows the stored-vector array by one entry per insert. -/
theorem insertAll_ok (entries : List (String × List ℚ)) :
    ∀ st : VectorIndexState, (∀ e ∈ entries, e.2.length = st.dimension) →
      ∃ st' : VectorIndexState, VectorIndex.insertAll st entries = .ok st' ∧
        st'.dimension = st.dimension ∧
        st'.vectors.length = st.vectors.length + entries.length := by
  induction entries with
  | nil => exact fun st _ => ⟨st, rfl, rfl, by simp [VectorIndex.insertAll]⟩
  | cons e rest ih =>
    intro st hall
    have he : e.2.length = st.dimension := hall e (by simp)
    obtain ⟨st', h1, h2, h3⟩ :=
      ih { st with vectors := st.vectors ++ [{ doc_id := e.1, vector := e.2 }] }
        (fun x hx => hall x (List.mem_cons_of_mem _ hx))
    have hins : VectorIndex.insert st e.1 e.2 =
        .ok (st.vectors.length,
          { st with vectors := st.vectors ++ [{ doc_id := e.1, vector := e.2 }] }) := by
      simp [VectorIndex.insert, he]
    refine ⟨st', ?_, h2, ?_⟩
    · simp only [VectorIndex.insertAll, hins]
      exact h1
    · simp only [h3]
      simp [Nat.add_assoc, Nat.add_comm 1 rest.length]

/-- C4: on a freshly created vector index of dimension D, `insert` errors
exactly on dimension mismatch and otherwise appends, returning the prior
vector count as id; `len` after k successful inserts is k; `search` on an
empty index returns the empty list. -/
theorem vector_index_law (D : Nat) (entries : List (String × List ℚ))
    (q : List ℚ) (k : Nat) (hnsw : List ℚ → Nat → Nat → List (Nat × ℚ))
    (hall : ∀ e ∈ entries, e.2.length = D) (hq : q.length = D) :
    (∀ (st : VectorIndexState) (d : String) (v : List ℚ),
      ((∃ err, VectorIndex.insert st d v = .error err) ↔ v.length ≠ st.dimension)) ∧
    (∀ (st : VectorIndexState) (d : String) (v : List ℚ), v.length = st.dimension →
      VectorIndex.insert st d v =
        .ok (st.vectors.length,
          { st with vectors := st.vectors ++ [{ doc_id := d, vector := v }] })) ∧
    (∃ st', VectorIndex.insertAll (VectorIndex.new D) entries = .ok st' ∧
      VectorIndex.len st' = entries.length) ∧
    VectorIndex.search (VectorIndex.new D) q k hnsw = .ok [] := by
  refine ⟨?_, ?_, ?_, ?_⟩
  · intro st d v
    constructor
    · rintro ⟨err, herr⟩
      intro hlen
      simp [VectorIndex.insert, hlen] at herr
    · intro hlen
      refine ⟨.dimensionMismatch st.dimension v.length, ?_⟩
      simp [VectorIndex.insert, hlen]
  · intro st d v hlen
    simp [VectorIndex.insert, hlen]
  · obtain ⟨st', h1, _, h3⟩ := insertAll_ok entries (VectorIndex.new D)
      (by simpa [VectorIndex.new] using hall)
    exact ⟨st', h1, by simpa [VectorIndex.len, VectorIndex.new] using h3⟩
  · simp [VectorIndex.search, VectorIndex.new, hq]

/-- Witness for `vector_index_law` at D = 4 with one insert. -/
theorem vector_index_law_witness :
    (∀ e ∈ [(("d1" : String), ([1, 0, 0, 0] : List ℚ))], e.2.length = 4) ∧
    ([(1 : ℚ), 0, 0, 0].length = 4) ∧
    ((∀ (st : VectorIndexState) (d : String) (v : List ℚ),
      ((∃ err, VectorIndex.insert st d v = .error err) ↔ v.length ≠ st.dimension)) ∧
    (∀ (st : VectorIndexState) (d : String) (v : List ℚ), v.length = st.dimension →
      VectorIndex.insert st d v =
        .ok (st.vectors.length,
          { st with vectors := st.vectors ++ [{ doc_id := d, vector := v }] })) ∧
    (∃ st', VectorIndex.insertAll (VectorIndex.new 4)
        [(("d1" : String), ([1, 0, 0, 0] : List ℚ))] = .ok st' ∧
      VectorIndex.len st' = 1) ∧
    VectorIndex.search (VectorIndex.new 4) [(1 : ℚ), 0, 0, 0] 2 (fun _ _ _ => []) = .ok []) :=
  ⟨by decide, by decide,
    vector_index_law 4 [(("d1" : String), ([1, 0, 0, 0] : List ℚ))] [(1 : ℚ), 0, 0, 0] 2
      (fun _ _ _ => []) (by decide) (by decide)⟩

/-- Helper: a list with no split at a dot contains no dot. -/
theorem splitLastDot_none_no_dot :
    ∀ l : List Char, splitLastDot l = none → '.' ∉ l := by
  intro l
  induction l with
  | nil => simp
  | cons c rest ih =>
    intro h
    simp only [splitLastDot] at h
    cases hr : splitLastDot rest with
    | some p => rw [hr] at h; cases h
    | none =>
      rw [hr] at h
      by_cases hc : c = '.'
      · simp [hc] at h
      · intro hmem
        rcases List.mem_cons.mp hmem with h1 | h2
        · exact hc h1.symm
        · exact ih hr h2

/-- Helper: the segment after the last dot contains no dot. -/
theorem splitLastDot_post_no_dot :
    ∀ (l pre post : List Char), splitLastDot l = some (pre, post) → '.' ∉ post := by
  intro l
  induction l with
  | nil => simp [splitLastDot]
  | cons c rest ih =>
    intro pre post h
    simp only [splitLastDot] at h
    cases hr : splitLastDot rest with
    | some p =>
      rw [hr] at h
      simp only [Option.some.injEq, Prod.mk.injEq] at h
      rw [← h.2]
      exact ih p.1 p.2 (by rw [hr])
    | none =>
      rw [hr] at h
      by_cases hc : c = '.'
      · rw [if_pos hc] at h
        simp only [Option.some.injEq, Prod.mk.injEq] at h
        rw [← h.2]
        exact splitLastDot_none_no_dot rest hr
      · simp [hc] at h

/-- C9 counterexample: for the file path `/w/A.RS` the stored extension
field is `RS`, the extension verbatim, not the lowercased `rs` the claim
requires. -/
theorem extension_not_lowercased :
    (Indexer.buildFileDoc (fun _ => "0000000000000000") "/w" "A.RS" "/w/A.RS"
        "body" 4 0).extension ≠
      toLowerStr ((rustExtension "/w/A.RS").getD "") := by
  decide

/-- C9 (amended): the stored extension field of a whole-file document is
the file's extension exactly as it appears in the path (empty when there
is none); it never carries a leading dot (the extension itself contains no
dot at all), but it is not lowercased. -/
theorem extension_stored_verbatim (docIdOf : String → String)
    (workspace_root rel_path path content : String) (size mtime : Nat) :
    ((Indexer.buildFileDoc docIdOf workspace_root rel_path path content
        size mtime).extension = (rustExtension path).getD "") ∧
    (∀ e, rustExtension path = some e → '.' ∉ e.toList) := by
  refine ⟨rfl, ?_⟩
  intro e he
  simp only [rustExtension] at he
  cases hs : splitLastDot (fileNameChars path) with
  | none => rw [hs] at he; cases he
  | some p =>
    obtain ⟨pre, post⟩ := p
    rw [hs] at he
    by_cases hpre : pre = []
    · simp [hpre] at he
    · simp only [if_neg hpre, Option.some.injEq] at he
      rw [← he]
      exact splitLastDot_post_no_dot _ _ _ hs

/-- C7 counterexample: a symlink path that was returned as Resolved is
reported as Skipped(CircularSymlink) — not Skipped(Duplicate) — when
resolved a second time in the same session. -/
theorem resolve_symlink_twice_counterexample :
    SymlinkResolver.resolve linkFS true 20 [] "link" =
      .ok (.resolved "link" "/c/target" true, ["/c/target"]) ∧
    SymlinkResolver.resolve linkFS true 20 ["/c/target"] "link" =
      .ok (.skipped .circularSymlink, ["/c/target"]) ∧
    ResolvedPath.skipped .circularSymlink ≠ ResolvedPath.skipped .duplicate := by
  refine ⟨rfl, rfl, by decide⟩

/-- C7 (amended): resolving a path P a second time after it was returned
as Resolved yields Skipped(Duplicate) when P is not a symlink, and
Skipped(CircularSymlink) when P is a symlink; in both cases the visited
set is unchanged. -/
theorem resolve_again_after_resolved (fs : FSModel) (follow : Bool) (maxd : Nat)
    (st st' : List String) (path orig canon : String) (sym : Bool)
    (h : SymlinkResolver.resolve fs follow maxd st path =
      .ok (.resolved orig canon sym, st')) :
    SymlinkResolver.resolve fs follow maxd st' path =
      .ok (.skipped (if sym then SkipReason.circularSymlink else SkipReason.duplicate),
        st') := by
  unfold SymlinkResolver.resolve SymlinkResolver.resolve_inner at h ⊢
  rw [if_neg (by omega)] at h ⊢
  cases hm : fs.meta path with
  | none => rw [hm] at h; cases h
  | some b =>
    rw [hm] at h
    cases b with
    | false =>
      dsimp only at h ⊢
      by_cases hmem : (fs.canonical path).getD path ∈ st
      · rw [if_pos hmem] at h; cases h
      · rw [if_neg hmem] at h
        injection h with h1
        injection h1 with hres hst
        injection hres with ho hc hsym
        subst hst
        rw [if_pos (List.mem_cons_self _ _), ← hsym]
        rfl
    | true =>
      dsimp only at h ⊢
      cases follow with
      | false => simp at h
      | true =>
        rw [if_neg (by decide)] at h ⊢
        cases hl : fs.linkAbs path with
        | none => rw [hl] at h; cases h
        | some target =>
          rw [hl] at h
          dsimp only at h ⊢
          cases hc : fs.canonical target with
          | none => rw [hc] at h; cases h
          | some canon' =>
            rw [hc] at h
            dsimp only at h ⊢
            by_cases hmem : canon' ∈ st
            · rw [if_pos hmem] at h; cases h
            · rw [if_neg hmem] at h
              injection h with h1
              injection h1 with hres hst
              injection hres with ho hcc hsym
              subst hst
              rw [if_pos (List.mem_cons_self _ _), ← hsym]
              rfl

/-- Witness for `resolve_again_after_resolved`: a regular file resolved
twice yields Resolved then Skipped(Duplicate). -/
theorem resolve_again_after_resolved_witness :
    SymlinkResolver.resolve regularFS true 20 [] "f" =
      .ok (.resolved "f" "/c/f" false, ["/c/f"]) ∧
    SymlinkResolver.resolve regularFS true 20 ["/c/f"] "f" =
      .ok (.skipped SkipReason.duplicate, ["/c/f"]) :=
  ⟨rfl, by
    simpa using resolve_again_after_resolved regularFS true 20 [] ["/c/f"]
      "f" "f" "/c/f" false rfl⟩

/-- Helper: full characterization of the chunker loop. With enough fuel,
chunk k (counting from the loop entry at `start = s`) covers lines
`s + k(W-O) + 1 .. min (s + k(W-O) + W) N`, and a chunk k exists exactly
when its start offset `s + k(W-O)` is below the line count. -/
theorem chunkLoop_spec (lines : List String) (W O : Nat) (hWO : O < W) :
    ∀ d f s c, lines.length - s ≤ d → lines.length ≤ f + s →
      (∀ k (hk : k < (chunkLoop lines W O f s c).length),
        (chunkLoop lines W O f s c).get ⟨k, hk⟩ =
          { chunk_num := c + k
            line_start := s + k * (W - O) + 1
            line_end := min (s + k * (W - O) + W) lines.length
            content := (lines.drop (s + k * (W - O))).take
              (min (s + k * (W - O) + W) lines.length - (s + k * (W - O))) }) ∧
      (∀ k, k < (chunkLoop lines W O f s c).length ↔
        s + k * (W - O) < lines.length) := by
  intro d
  induction d with
  | zero =>
    intro f s c hd _
    have hs : lines.length ≤ s := by omega
    have hloop : chunkLoop lines W O f s c = [] := by
      cases f with
      | zero => rfl
      | succ f' => rw [chunkLoop, if_neg (by omega)]
    rw [hloop]
    refine ⟨fun k hk => absurd hk (by simp), fun k => ?_⟩
    simp only [List.length_nil]
    constructor
    · omega
    · intro hlt
      have : 0 ≤ k * (W - O) := Nat.zero_le _
      omega
  | succ d ih =>
    intro f s c hd hf
    by_cases hs : s < lines.length
    · cases f with
      | zero => omega
      | succ f' =>
        rw [chunkLoop, if_pos hs]
        have hd' : lines.length - (s + (W - O)) ≤ d := by omega
        have hf' : lines.length ≤ f' + (s + (W - O)) := by omega
        obtain ⟨ih1, ih2⟩ := ih f' (s + (W - O)) (c + 1) hd' hf'
        have hA : ∀ k' : Nat, s + (W - O) + k' * (W - O) = s + (k' + 1) * (W - O) := by
          intro k'
          rw [Nat.succ_mul]
          omega
        constructor
        · intro k hk
          cases k with
          | zero =>
            simp only [Nat.zero_mul, Nat.add_zero]
            rfl
          | succ k' =>
            have hk' : k' < (chunkLoop lines W O f' (s + (W - O)) (c + 1)).length := by
              simpa using Nat.lt_of_succ_lt_succ (by simpa using hk)
            rw [List.get_cons_succ, ih1 k' hk', hA k',
              show c + 1 + k' = c + (k' + 1) by omega]
        · intro k
          cases k with
          | zero =>
            simp only [List.length_cons, Nat.zero_mul, Nat.add_zero]
            omega
          | succ k' =>
            simp only [List.length_cons, Nat.succ_lt_succ_iff]
            rw [ih2 k', hA k']
    · have hloop : chunkLoop lines W O f s c = [] := by
        cases f with
        | zero => rfl
        | succ f' => rw [chunkLoop, if_neg hs]
      rw [hloop]
      refine ⟨fun k hk => absurd hk (by simp), fun k => ?_⟩
      simp only [List.length_nil]
      constructor
      · omega
      · intro hlt
        have : 0 ≤ k * (W - O) := Nat.zero_le _
        omega

/-- Helper: characterization of `index_chunks` for files longer than one
window. -/
theorem index_chunks_char (lines : List String) (W O : Nat) (hWO : O < W)
    (hN : W < lines.length) :
    (∀ k (hk : k < (index_chunks lines W O).length),
      (index_chunks lines W O).get ⟨k, hk⟩ =
        { chunk_num := k
          line_start := k * (W - O) + 1
          line_end := min (k * (W - O) + W) lines.length
          content := (lines.drop (k * (W - O))).take
            (min (k * (W - O) + W) lines.length - k * (W - O)) }) ∧
    (∀ k, k < (index_chunks lines W O).length ↔ k * (W - O) < lines.length) := by
  have hunfold : index_chunks lines W O =
      chunkLoop lines W O (lines.length + 1) 0 0 := by
    rw [index_chunks, if_neg (by omega)]
  obtain ⟨h1, h2⟩ := chunkLoop_spec lines W O hWO lines.length (lines.length + 1) 0 0
    (by omega) (by omega)
  rw [hunfold]
  refine ⟨fun k hk => ?_, fun k => ?_⟩
  · rw [h1 k hk]
    simp only [Nat.zero_add]
  · rw [h2 k]
    simp only [Nat.zero_add]

/-- Helper: the `(line_start, line_end)` pair of chunk k. -/
theorem chunkRanges_get (lines : List String) (W O : Nat) (hWO : O < W)
    (hN : W < lines.length) (k : Nat)
    (hk : k < (chunkRanges lines W O).length) :
    (chunkRanges lines W O).get ⟨k, hk⟩ =
      (k * (W - O) + 1, min (k * (W - O) + W) lines.length) := by
  have hk' : k < (index_chunks lines W O).length := by
    simpa [chunkRanges] using hk
  have := (index_chunks_char lines W O hWO hN).1 k hk'
  simp only [chunkRanges, List.get_eq_getElem, List.getElem_map]
  rw [List.get_eq_getElem] at this
  rw [this]

/-- C8: the chunker emits no chunks when the line count is at most W, and
otherwise emits exactly the ranges `[k(W-O)+1 .. min(k(W-O)+W, N)]` for
k = 0, 1, … while k(W-O) < N; for N = 120, W = 50, O = 10 the ranges are
[1..50], [41..90], [81..120]. -/
theorem chunker_window_law (lines : List String) (W O : Nat) (hWO : O < W)
    (hO : 0 < O) :
    (lines.length ≤ W → index_chunks lines W O = []) ∧
    (W < lines.length →
      (∀ k (hk : k < (chunkRanges lines W O).length),
        (chunkRanges lines W O).get ⟨k, hk⟩ =
          (k * (W - O) + 1, min (k * (W - O) + W) lines.length)) ∧
      (∀ k, k < (chunkRanges lines W O).length ↔ k * (W - O) < lines.length)) ∧
    chunkRanges (List.replicate 120 "") 50 10 = [(1, 50), (41, 90), (81, 120)] := by
  refine ⟨fun hle => ?_, fun hN => ⟨fun k hk => chunkRanges_get lines W O hWO hN k hk, ?_⟩, ?_⟩
  · rw [index_chunks, if_pos hle]
  · intro k
    have := (index_chunks_char lines W O hWO hN).2 k
    simpa [chunkRanges] using this
  · decide

/-- Witness for `chunker_window_law` at W = 50, O = 10 on a 120-line file. -/
theorem chunker_window_law_witness :
    (10 < 50) ∧ (0 < 10) ∧
    (((List.replicate (α := String) 120 "").length ≤ 50 →
      index_chunks (List.replicate 120 "") 50 10 = []) ∧
    (50 < (List.replicate (α := String) 120 "").length →
      (∀ k (hk : k < (chunkRanges (List.replicate 120 "") 50 10).length),
        (chunkRanges (List.replicate 120 "") 50 10).get ⟨k, hk⟩ =
          (k * (50 - 10) + 1,
            min (k * (50 - 10) + 50) (List.replicate (α := String) 120 "").length)) ∧
      (∀ k, k < (chunkRanges (List.replicate 120 "") 50 10).length ↔
        k * (50 - 10) < (List.replicate (α := String) 120 "").length)) ∧
    chunkRanges (List.replicate 120 "") 50 10 = [(1, 50), (41, 90), (81, 120)]) :=
  ⟨by decide, by decide, chunker_window_law (List.replicate 120 "") 50 10
    (by decide) (by decide)⟩

/-- Helper: intersection of Nat interval finsets. -/
theorem Icc_inter_nat (a b c d : Nat) :
    Finset.Icc a b ∩ Finset.Icc c d = Finset.Icc (max a c) (min b d) := by
  rw [← Finset.coe_inj, Finset.coe_inter, Finset.coe_Icc, Finset.coe_Icc, Finset.coe_Icc,
    Set.Icc_inter_Icc]

/-- Helper: the number of lines shared by two ranges in closed form. -/
theorem sharedLines_eq (a₁ b₁ a₂ b₂ : Nat) :
    sharedLines (a₁, b₁) (a₂, b₂) = min b₁ b₂ + 1 - max a₁ a₂ := by
  rw [sharedLines, Icc_inter_nat, Nat.card_Icc]

set_option maxRecDepth 8000 in
/-- C3 counterexample: for N = 125, W = 50, O = 10 (which satisfy
W > O > 0 and N > W) the chunker emits [1..50], [41..90], [81..125],
[121..125]; the last two consecutive chunks share 5 lines, not O = 10. -/
theorem chunk_overlap_counterexample :
    (List.replicate (α := String) 125 "").length = 125 ∧
    (50 : Nat) > 10 ∧ (10 : Nat) > 0 ∧ (125 : Nat) > 50 ∧
    chunkRanges (List.replicate 125 "") 50 10 =
      [(1, 50), (41, 90), (81, 125), (121, 125)] ∧
    sharedLines (81, 125) (121, 125) = 5 ∧
    sharedLines (81, 125) (121, 125) ≠ 10 := by
  refine ⟨by simp, by decide, by decide, by decide, by decide, ?_, ?_⟩
  · rw [sharedLines_eq]
    decide
  · rw [sharedLines_eq]
    decide

/-- C3 (amended): for W > O > 0 and N > W the union of the emitted chunk
ranges covers [1, N], and consecutive chunks k and k+1 share exactly
`min O (N - (k+1)(W-O))` lines — this is O for every pair except possibly
the last one, which can share fewer lines when the previous chunk was
already clipped at N. -/
theorem chunker_cover_and_overlap (lines : List String) (W O : Nat)
    (hWO : O < W) (hO : 0 < O) (hN : W < lines.length) :
    (∀ i, 1 ≤ i → i ≤ lines.length →
      ∃ r ∈ chunkRanges lines W O, r.1 ≤ i ∧ i ≤ r.2) ∧
    (∀ k (hk : k + 1 < (chunkRanges lines W O).length),
      sharedLines ((chunkRanges lines W O).get ⟨k, Nat.lt_of_succ_lt hk⟩)
          ((chunkRanges lines W O).get ⟨k + 1, hk⟩) =
        min O (lines.length - (k + 1) * (W - O))) := by
  have hlen_eq : (chunkRanges lines W O).length = (index_chunks lines W O).length := by
    simp [chunkRanges]
  have hiff := (index_chunks_char lines W O hWO hN).2
  constructor
  · intro i h1 hi
    have hWOpos : 0 < W - O := by omega
    set k := (i - 1) / (W - O) with hkdef
    obtain ⟨r, hr, hir⟩ : ∃ r, r < W - O ∧ (W - O) * k + r = i - 1 :=
      ⟨(i - 1) % (W - O), Nat.mod_lt _ hWOpos, by rw [hkdef]; exact Nat.div_add_mod _ _⟩
    have hcomm : k * (W - O) = (W - O) * k := Nat.mul_comm _ _
    have hkN : k * (W - O) < lines.length := by omega
    have hklen : k < (chunkRanges lines W O).length := by
      rw [hlen_eq, hiff k]
      exact hkN
    refine ⟨(chunkRanges lines W O).get ⟨k, hklen⟩, List.get_mem _ _ _, ?_⟩
    rw [chunkRanges_get lines W O hWO hN k hklen]
    constructor
    · show k * (W - O) + 1 ≤ i
      omega
    · show i ≤ min (k * (W - O) + W) lines.length
      omega
  · intro k hk
    have hk1 : k < (chunkRanges lines W O).length := Nat.lt_of_succ_lt hk
    have hs1 : (k + 1) * (W - O) < lines.length := by
      rw [← hiff (k + 1), ← hlen_eq]
      exact hk
    rw [chunkRanges_get lines W O hWO hN k hk1,
      chunkRanges_get lines W O hWO hN (k + 1) hk, sharedLines_eq]
    have hsm : (k + 1) * (W - O) = k * (W - O) + (W - O) := Nat.succ_mul _ _
    omega

set_option maxRecDepth 8000 in
/-- Witness for `chunker_cover_and_overlap` on a 125-line file with
W = 50, O = 10. -/
theorem chunker_cover_and_overlap_witness :
    (10 < 50) ∧ (0 < 10) ∧ (50 < (List.replicate (α := String) 125 "").length) ∧
    ((∀ i, 1 ≤ i → i ≤ (List.replicate (α := String) 125 "").length →
      ∃ r ∈ chunkRanges (List.replicate 125 "") 50 10, r.1 ≤ i ∧ i ≤ r.2) ∧
    (∀ k (hk : k + 1 < (chunkRanges (List.replicate 125 "") 50 10).length),
      sharedLines
          ((chunkRanges (List.replicate 125 "") 50 10).get ⟨k, Nat.lt_of_succ_lt hk⟩)
          ((chunkRanges (List.replicate 125 "") 50 10).get ⟨k + 1, hk⟩) =
        min 10 ((List.replicate (α := String) 125 "").length - (k + 1) * (50 - 10)))) :=
  ⟨by decide, by decide, by simp,
    chunker_cover_and_overlap (List.replicate 125 "") 50 10 (by decide) (by decide)
      (by simp)⟩

/-- Helper: every hit collected by the searcher loop comes from a
retrieved document whose content passes the literal filter. -/
theorem collectHits_sound (query : String) (ms : ℚ) :
    ∀ (docs : List (ℚ × StoredDoc)) (lim : Nat) (h : SearchHit),
      h ∈ collectHits query ms docs lim →
      ∃ sd ∈ docs, containsCI sd.2.content query = true ∧
        h = mkSearcherHit query ms sd.1 sd.2 := by
  intro docs
  induction docs with
  | nil =>
    intro lim h hh
    cases lim <;> simp [collectHits] at hh
  | cons d rest ih =>
    intro lim h hh
    cases lim with
    | zero => simp [collectHits] at hh
    | succ l =>
      obtain ⟨score, doc⟩ := d
      simp only [collectHits] at hh
      by_cases hc : containsCI doc.content query = true
      · rw [if_pos hc] at hh
        rcases List.mem_cons.mp hh with h1 | h2
        · exact ⟨(score, doc), by simp, hc, h1⟩
        · obtain ⟨sd, hsd, hcc, heq⟩ := ih l h h2
          exact ⟨sd, List.mem_cons_of_mem _ hsd, hcc, heq⟩
      · rw [if_neg hc] at hh
        obtain ⟨sd, hsd, hcc, heq⟩ := ih (l + 1) h hh
        exact ⟨sd, List.mem_cons_of_mem _ hsd, hcc, heq⟩

/-- Helper: when no retrieved document passes the literal filter, the
collection loop keeps nothing. -/
theorem collectHits_none (query : String) (ms : ℚ) :
    ∀ (docs : List (ℚ × StoredDoc)) (lim : Nat),
      (∀ sd ∈ docs, containsCI sd.2.content query = false) →
      collectHits query ms docs lim = [] := by
  intro docs
  induction docs with
  | nil => intro lim _; cases lim <;> rfl
  | cons d rest ih =>
    intro lim hnone
    cases lim with
    | zero => rfl
    | succ l =>
      obtain ⟨score, doc⟩ := d
      have hc : containsCI doc.content query = false := hnone (score, doc) (by simp)
      simp only [collectHits]
      rw [if_neg (by simp [hc])]
      exact ih (l + 1) (fun sd hsd => hnone sd (List.mem_cons_of_mem _ hsd))

/-- C1: every hit returned by the BM25 searcher comes from a retrieved
document whose stored content contains the query as a case-insensitive
substring; in particular, when no retrieved document contains the query
literally (e.g. a regex-looking query whose text occurs nowhere), the
search returns zero hits. -/
theorem searcher_literal_post_filter (cfg : SearchConfig) (query : String)
    (limit : Option Nat) (topDocs : List (ℚ × StoredDoc))
    (hq : query.toList.any (fun c => c.isAlphanum || c == '_') = true) :
    (∀ h ∈ (Searcher.search cfg query limit topDocs).hits,
      ∃ sd ∈ topDocs, containsCI sd.2.content query = true ∧
        h = mkSearcherHit query (((topDocs.head?).map Prod.fst).getD 1) sd.1 sd.2) ∧
    ((∀ sd ∈ topDocs, containsCI sd.2.content query = false) →
      (Searcher.search cfg query limit topDocs).hits = []) := by
  unfold Searcher.search
  by_cases he : (searchTerms query).isEmpty
  · rw [if_pos he]
    exact ⟨fun h hh => absurd hh (by simp), fun _ => rfl⟩
  · rw [if_neg he]
    constructor
    · intro h hh
      exact collectHits_sound query _ topDocs _ h hh
    · intro hnone
      exact collectHits_none query _ topDocs _ hnone

/-- Witness for `searcher_literal_post_filter` on the query `hello`
against one stored document. -/
theorem searcher_literal_post_filter_witness :
    (("hello" : String).toList.any (fun c => c.isAlphanum || c == '_') = true) ∧
    ((∀ h ∈ (Searcher.search defaultCfg "hello" none [(1, helloDoc)]).hits,
      ∃ sd ∈ [((1 : ℚ), helloDoc)], containsCI sd.2.content "hello" = true ∧
        h = mkSearcherHit "hello"
          ((([((1 : ℚ), helloDoc)].head?).map Prod.fst).getD 1) sd.1 sd.2) ∧
    ((∀ sd ∈ [((1 : ℚ), helloDoc)], containsCI sd.2.content "hello" = false) →
      (Searcher.search defaultCfg "hello" none [(1, helloDoc)]).hits = [])) :=
  ⟨by decide, searcher_literal_post_filter defaultCfg "hello" none [(1, helloDoc)] (by decide)⟩

/-- Helper: entries produced by the BM25 fusion loop carry the `result`
of an accumulator entry or of one of the processed results. -/
theorem foldl_upsertBM25_result (w : ℚ) :
    ∀ (rs : List RankedResult) (acc : List FusedScore),
      ∀ f ∈ rs.foldl (upsertBM25 w) acc,
        (∃ g ∈ acc, f.result = g.result) ∨ f.result ∈ rs := by
  intro rs
  induction rs with
  | nil => intro acc f hf; exact .inl ⟨f, hf, rfl⟩
  | cons r rest ih =>
    intro acc f hf
    simp only [List.foldl_cons] at hf
    rcases ih (upsertBM25 w acc r) f hf with ⟨g, hg, hfg⟩ | hmem
    · rw [upsertBM25] at hg
      by_cases hany : acc.any (fun x => x.result.doc_id == r.doc_id) = true
      · rw [if_pos hany] at hg
        obtain ⟨g₀, hg₀, hmap⟩ := List.mem_map.mp hg
        have hres : g.result = g₀.result := by
          rw [← hmap]
          by_cases hid : (g₀.result.doc_id == r.doc_id) = true
          · rw [if_pos hid]
          · rw [if_neg hid]
        exact .inl ⟨g₀, hg₀, hfg.trans hres⟩
      · rw [if_neg hany] at hg
        rcases List.mem_append.mp hg with h1 | h2
        · exact .inl ⟨g, h1, hfg⟩
        · right
          have hgr := List.mem_singleton.mp h2
          rw [hfg, hgr]
          exact List.mem_cons_self _ _
    · exact .inr (List.mem_cons_of_mem _ hmem)

/-- Helper: entries produced by the vector fusion loop carry the `result`
of an accumulator entry or of one of the processed results. -/
theorem foldl_upsertVec_result (w : ℚ) :
    ∀ (rs : List RankedResult) (acc : List FusedScore),
      ∀ f ∈ rs.foldl (upsertVec w) acc,
        (∃ g ∈ acc, f.result = g.result) ∨ f.result ∈ rs := by
  intro rs
  induction rs with
  | nil => intro acc f hf; exact .inl ⟨f, hf, rfl⟩
  | cons r rest ih =>
    intro acc f hf
    simp only [List.foldl_cons] at hf
    rcases ih (upsertVec w acc r) f hf with ⟨g, hg, hfg⟩ | hmem
    · rw [upsertVec] at hg
      by_cases hany : acc.any (fun x => x.result.doc_id == r.doc_id) = true
      · rw [if_pos hany] at hg
        obtain ⟨g₀, hg₀, hmap⟩ := List.mem_map.mp hg
        have hres : g.result = g₀.result := by
          rw [← hmap]
          by_cases hid : (g₀.result.doc_id == r.doc_id) = true
          · rw [if_pos hid]
          · rw [if_neg hid]
        exact .inl ⟨g₀, hg₀, hfg.trans hres⟩
      · rw [if_neg hany] at hg
        rcases List.mem_append.mp hg with h1 | h2
        · exact .inl ⟨g, h1, hfg⟩
        · right
          have hgr := List.mem_singleton.mp h2
          rw [hfg, hgr]
          exact List.mem_cons_self _ _
    · exact .inr (List.mem_cons_of_mem _ hmem)

/-- Helper: every fused score's underlying result comes from one of the
two fused input lists. -/
theorem rrfCombine_result (b v : List RankedResult) (wb wv : ℚ) :
    ∀ f ∈ rrfCombine b v wb wv, f.result ∈ b ∨ f.result ∈ v := by
  intro f hf
  rcases foldl_upsertVec_result wv v (b.foldl (upsertBM25 wb) []) f hf with
    ⟨g, hg, hfg⟩ | hv
  · rcases foldl_upsertBM25_result wb b [] g hg with ⟨g', hg', _⟩ | hb
    · simp at hg'
    · exact .inl (hfg ▸ hb)
  · exact .inr hv

set_option maxRecDepth 40000 in
/-- C2 counterexample: a hybrid search for `println` returns a single hit
(a vector-retrieved document `d1`) whose snippet is `hello world`, which
does not contain the query as a case-insensitive substring. -/
theorem hybrid_snippet_counterexample :
    (HybridSearcher.search defaultCfg "println" (some 10) (fun _ => []) constHash
        zeroEmbed (EmbeddingCache.new 1 384) oneVecIndex oneVecHnsw oneVecLookup).map
      (fun r => r.hits.map (fun h => (h.doc_id, h.snippet))) =
      .ok [("d1", "hello world")] ∧
    containsCI "hello world" "println" = false := by
  exact ⟨by rfl, by decide⟩

/-- C2 (amended): every hybrid search result is ordered by descending
fused RRF total; each hit's snippet is the first at most 10 lines of the
underlying stored content — the hybrid snippet ignores the query and the
hybrid path has no literal post-filter, so the snippet need not contain
the query. -/
theorem hybrid_sorted_and_snippet (cfg : SearchConfig) (query : String)
    (limit : Option Nat) (tantivyTop : Nat → List (ℚ × StoredDoc))
    (hash : String → Nat) (embed : String → Except YgrepErr (List ℚ))
    (cache : CacheState) (vecSt : VectorIndexState)
    (hnsw : List ℚ → Nat → Nat → List (Nat × ℚ))
    (lookup : String → Option DocInfo) (res : SearchResult)
    (hres : HybridSearcher.search cfg query limit tantivyTop hash embed cache
      vecSt hnsw lookup = .ok res) :
    List.Sorted hitLE res.hits ∧
    (∃ vec, HybridSearcher.vector_search hash embed cache query vecSt hnsw lookup
        (min (limit.getD cfg.default_limit) cfg.max_limit * 3) = .ok vec ∧
      res.hits = (HybridSearcher.reciprocal_rank_fusion
          (HybridSearcher.bm25_results
            (tantivyTop (min (limit.getD cfg.default_limit) cfg.max_limit * 3)))
          vec cfg.bm25_weight cfg.vector_weight).take
        (min (limit.getD cfg.default_limit) cfg.max_limit) ∧
      ∀ h ∈ res.hits,
        ∃ r, (r ∈ HybridSearcher.bm25_results
            (tantivyTop (min (limit.getD cfg.default_limit) cfg.max_limit * 3)) ∨
          r ∈ vec) ∧
          h.doc_id = r.doc_id ∧ h.snippet = hybridSnippet r.content 10) := by
  simp only [HybridSearcher.search] at hres
  cases hv : HybridSearcher.vector_search hash embed cache query vecSt hnsw lookup
      (min (limit.getD cfg.default_limit) cfg.max_limit * 3) with
  | error e => rw [hv] at hres; cases hres
  | ok vec =>
    rw [hv] at hres
    injection hres with hres
    subst hres
    constructor
    · exact List.Pairwise.sublist (List.take_sublist _ _)
        (List.sorted_insertionSort hitLE _)
    · refine ⟨vec, rfl, rfl, ?_⟩
      intro h hh
      have h1 : h ∈ List.insertionSort hitLE
          ((rrfCombine (HybridSearcher.bm25_results
              (tantivyTop (min (limit.getD cfg.default_limit) cfg.max_limit * 3)))
            vec cfg.bm25_weight cfg.vector_weight).map fusedToHit) :=
        List.take_subset _ _ hh
      have h2 := (List.mem_insertionSort hitLE).mp h1
      obtain ⟨f, hfmem, hfh⟩ := List.mem_map.mp h2
      rcases rrfCombine_result _ _ _ _ f hfmem with hb | hvv
      · exact ⟨f.result, .inl hb, by rw [← hfh]; rfl, by rw [← hfh]; rfl⟩
      · exact ⟨f.result, .inr hvv, by rw [← hfh]; rfl, by rw [← hfh]; rfl⟩

set_option maxRecDepth 40000 in
/-- Witness for `hybrid_sorted_and_snippet` at a concrete hybrid search
over an empty vector index. -/
theorem hybrid_sorted_and_snippet_witness :
    (HybridSearcher.search defaultCfg "println" (some 10) (fun _ => []) constHash
        zeroEmbed (EmbeddingCache.new 1 384) (VectorIndex.new 384) oneVecHnsw oneVecLookup =
      .ok { total := 0, hits := [] }) ∧
    (List.Sorted hitLE (SearchResult.mk 0 []).hits ∧
    (∃ vec, HybridSearcher.vector_search constHash zeroEmbed (EmbeddingCache.new 1 384)
        "println" (VectorIndex.new 384) oneVecHnsw oneVecLookup
        (min ((some 10).getD defaultCfg.default_limit) defaultCfg.max_limit * 3) = .ok vec ∧
      (SearchResult.mk 0 []).hits = (HybridSearcher.reciprocal_rank_fusion
          (HybridSearcher.bm25_results
            ((fun _ => ([] : List (ℚ × StoredDoc)))
              (min ((some 10).getD defaultCfg.default_limit) defaultCfg.max_limit * 3)))
          vec defaultCfg.bm25_weight defaultCfg.vector_weight).take
        (min ((some 10).getD defaultCfg.default_limit) defaultCfg.max_limit) ∧
      ∀ h ∈ (SearchResult.mk 0 []).hits,
        ∃ r, (r ∈ HybridSearcher.bm25_results
            ((fun _ => ([] : List (ℚ × StoredDoc)))
              (min ((some 10).getD defaultCfg.default_limit) defaultCfg.max_limit * 3)) ∨
          r ∈ vec) ∧
          h.doc_id = r.doc_id ∧ h.snippet = hybridSnippet r.content 10)) :=
  ⟨by rfl, hybrid_sorted_and_snippet defaultCfg "println" (some 10) (fun _ => []) constHash
    zeroEmbed (EmbeddingCache.new 1 384) (VectorIndex.new 384) oneVecHnsw oneVecLookup
    (SearchResult.mk 0 []) (by rfl)⟩

/-- C10: when the embedding computation for a text fails (on a cache
miss, the only case in which it runs), the error is not propagated: the
384-dimension zero vector takes its place — it is returned by the cached
embedding step and stored in the cache under the text's hash, the indexer
inserts it into the vector index for the document (and likewise for a
chunk), and the hybrid searcher uses it as the query embedding. -/
theorem embed_error_zero_vector (hash : String → Nat)
    (embed : String → Except YgrepErr (List ℚ)) (cache : CacheState)
    (vecSt : VectorIndexState) (text doc_id chunk_id : String) (e : YgrepErr)
    (k : Nat) (hnsw : List ℚ → Nat → Nat → List (Nat × ℚ))
    (lookup : String → Option DocInfo)
    (hcap : 0 < cache.capacity)
    (hmiss : cacheFind cache (hash text) = none)
    (herr : embed text = .error e)
    (hdim : vecSt.dimension = 384) :
    (embedViaCache hash embed cache text =
      (List.replicate 384 0, cachePut cache (hash text) (List.replicate 384 0))) ∧
    (cacheFind (cachePut cache (hash text) (List.replicate 384 0)) (hash text) =
      some (List.replicate 384 0)) ∧
    (indexFileEmbeddings hash embed vecSt cache doc_id text [] =
      .ok ({ vecSt with vectors := vecSt.vectors ++
          [{ doc_id := doc_id, vector := List.replicate 384 0 }] },
        cachePut cache (hash text) (List.replicate 384 0))) ∧
    (chunkEmbedLoop hash embed vecSt cache [(chunk_id, text)] =
      .ok ({ vecSt with vectors := vecSt.vectors ++
          [{ doc_id := chunk_id, vector := List.replicate 384 0 }] },
        cachePut cache (hash text) (List.replicate 384 0))) ∧
    (vecSt.vectors.isEmpty = false →
      HybridSearcher.vector_search hash embed cache text vecSt hnsw lookup k =
        Except.map (fun ns => HybridSearcher.vector_results ns lookup)
          (VectorIndex.search vecSt (List.replicate 384 0) k hnsw)) := by
  have hfind : cache.entries.find? (fun x => x.1 == hash text) = none := by
    rw [cacheFind] at hmiss
    exact Option.map_eq_none'.mp hmiss
  have hstep : embedViaCache hash embed cache text =
      (List.replicate 384 0, cachePut cache (hash text) (List.replicate 384 0)) := by
    rw [embedViaCache, embedOrZero, herr, EmbeddingCache.get_or_insert, cacheGet, hfind]
  have hins : VectorIndex.insert vecSt doc_id (List.replicate 384 0) =
      .ok (vecSt.vectors.length, { vecSt with vectors := vecSt.vectors ++
        [{ doc_id := doc_id, vector := List.replicate 384 0 }] }) := by
    rw [VectorIndex.insert, if_neg (by rw [List.length_replicate, hdim]; omega)]
  have hinsc : VectorIndex.insert vecSt chunk_id (List.replicate 384 0) =
      .ok (vecSt.vectors.length, { vecSt with vectors := vecSt.vectors ++
        [{ doc_id := chunk_id, vector := List.replicate 384 0 }] }) := by
    rw [VectorIndex.insert, if_neg (by rw [List.length_replicate, hdim]; omega)]
  refine ⟨hstep, ?_, ?_, ?_, ?_⟩
  · rw [cacheFind, cachePut]
    cases hc : cache.capacity with
    | zero => omega
    | succ m =>
      rw [List.take_succ_cons, List.find?_cons_of_pos _ (by simp)]
      rfl
  · rw [indexFileEmbeddings, hstep]
    simp only [hins]
    rfl
  · rw [chunkEmbedLoop, hstep]
    simp only [hinsc]
    rfl
  · intro hne
    rw [HybridSearcher.vector_search]
    rw [if_neg (by simp [hne]), hstep]
    dsimp only
    cases h : VectorIndex.search vecSt (List.replicate 384 0) k hnsw with
    | error err => rfl
    | ok ns => rfl

/-- Witness for `embed_error_zero_vector` with an always-failing embedder
and a fresh cache. -/
theorem embed_error_zero_vector_witness :
    (0 < (EmbeddingCache.new 1 384).capacity) ∧
    (cacheFind (EmbeddingCache.new 1 384) (constHash "t") = none) ∧
    (failingEmbed "t" = .error .embedFailed) ∧
    (oneVecIndex.dimension = 384) ∧
    ((embedViaCache constHash failingEmbed (EmbeddingCache.new 1 384) "t" =
      (List.replicate 384 0,
        cachePut (EmbeddingCache.new 1 384) (constHash "t") (List.replicate 384 0))) ∧
    (cacheFind (cachePut (EmbeddingCache.new 1 384) (constHash "t")
        (List.replicate 384 0)) (constHash "t") = some (List.replicate 384 0)) ∧
    (indexFileEmbeddings constHash failingEmbed oneVecIndex (EmbeddingCache.new 1 384)
        "d" "t" [] =
      .ok ({ oneVecIndex with vectors := oneVecIndex.vectors ++
          [{ doc_id := "d", vector := List.replicate 384 0 }] },
        cachePut (EmbeddingCache.new 1 384) (constHash "t") (List.replicate 384 0))) ∧
    (chunkEmbedLoop constHash failingEmbed oneVecIndex (EmbeddingCache.new 1 384)
        [("c", "t")] =
      .ok ({ oneVecIndex with vectors := oneVecIndex.vectors ++
          [{ doc_id := "c", vector := List.replicate 384 0 }] },
        cachePut (EmbeddingCache.new 1 384) (constHash "t") (List.replicate 384 0))) ∧
    (oneVecIndex.vectors.isEmpty = false →
      HybridSearcher.vector_search constHash failingEmbed (EmbeddingCache.new 1 384)
          "t" oneVecIndex oneVecHnsw oneVecLookup 30 =
        Except.map (fun ns => HybridSearcher.vector_results ns oneVecLookup)
          (VectorIndex.search oneVecIndex (List.replicate 384 0) 30 oneVecHnsw))) :=
  ⟨by decide, by rfl, by rfl, by rfl,
    embed_error_zero_vector constHash failingEmbed (EmbeddingCache.new 1 384)
      oneVecIndex "t" "d" "c" .embedFailed 30 oneVecHnsw oneVecLookup
      (by decide) (by rfl) (by rfl) (by rfl)⟩

/-- Helper: the rank of the i-th element of a positionally ranked list. -/
theorem rank_of_get (R : List RankedResult)
    (hranks : ∀ p ∈ R.enum, p.2.rank = p.1 + 1) (i : Fin R.length) :
    (R.get i).rank = i.1 + 1 := by
  have hi : i.1 < R.enum.length := by
    rw [List.enum_length]
    exact i.2
  have hg := List.get_enum R ⟨i.1, hi⟩
  have hmem : R.enum.get ⟨i.1, hi⟩ ∈ R.enum := List.get_mem _ _ _
  have hr := hranks _ hmem
  rw [hg] at hr
  simpa using hr

/-- Helper: the BM25 fusion loop over fresh results appends one entry per
result when doc_ids are pairwise distinct. -/
theorem foldl_upsertBM25_fresh (w : ℚ) :
    ∀ (rs : List RankedResult) (acc : List FusedScore),
      (∀ r ∈ rs, ∀ g ∈ acc, g.result.doc_id ≠ r.doc_id) →
      (rs.map (fun r => r.doc_id)).Nodup →
      rs.foldl (upsertBM25 w) acc = acc ++ rs.map (rrfEntryB w) := by
  intro rs
  induction rs with
  | nil => intro acc _ _; simp
  | cons r rest ih =>
    intro acc hdisj hnodup
    simp only [List.map_cons, List.nodup_cons] at hnodup
    simp only [List.foldl_cons]
    have hany : ¬ (acc.any (fun f => f.result.doc_id == r.doc_id) = true) := by
      rw [List.any_eq_true]
      rintro ⟨f, hf, hbeq⟩
      exact hdisj r (List.mem_cons_self _ _) f hf (beq_iff_eq.mp hbeq)
    have hups : upsertBM25 w acc r = acc ++ [rrfEntryB w r] := by
      rw [upsertBM25, if_neg hany]
      rfl
    rw [hups]
    have hdisj' : ∀ r' ∈ rest, ∀ g ∈ acc ++ [rrfEntryB w r],
        g.result.doc_id ≠ r'.doc_id := by
      intro r' hr' g hg
      rcases List.mem_append.mp hg with h1 | h2
      · exact hdisj r' (List.mem_cons_of_mem _ hr') g h1
      · rw [List.mem_singleton.mp h2]
        intro heq
        apply hnodup.1
        have heq' : r.doc_id = r'.doc_id := heq
        rw [heq']
        exact List.mem_map_of_mem _ hr'
    rw [ih (acc ++ [rrfEntryB w r]) hdisj' hnodup.2]
    simp

/-- Helper: the vector fusion loop over results that are all present in
the accumulator updates each entry's vector contribution in place. -/
theorem foldl_upsertVec_update (w : ℚ) :
    ∀ (todo done : List RankedResult),
      (((done ++ todo).map (fun r => r.doc_id)).Nodup) →
      todo.foldl (upsertVec w)
          (done.map (rrfEntryFull w) ++ todo.map (rrfEntryB w)) =
        (done ++ todo).map (rrfEntryFull w) := by
  intro todo
  induction todo with
  | nil => intro done _; simp
  | cons t rest ih =>
    intro done hnodup
    have hnd := hnodup
    rw [List.map_append, List.nodup_append] at hnd
    have hdone : ∀ r ∈ done, r.doc_id ≠ t.doc_id := by
      intro r hr heq
      exact hnd.2.2 (List.mem_map_of_mem _ hr) (by rw [heq]; simp)
    have hrest : ∀ r ∈ rest, r.doc_id ≠ t.doc_id := by
      have := hnd.2.1
      simp only [List.map_cons, List.nodup_cons] at this
      intro r hr heq
      exact this.1 (heq ▸ List.mem_map_of_mem _ hr)
    have hstep : upsertVec w
        (done.map (rrfEntryFull w) ++ (t :: rest).map (rrfEntryB w)) t =
        done.map (rrfEntryFull w) ++ (rrfEntryFull w t :: rest.map (rrfEntryB w)) := by
      have hany : (done.map (rrfEntryFull w) ++ (t :: rest).map (rrfEntryB w)).any
          (fun f => f.result.doc_id == t.doc_id) = true :=
        List.any_eq_true.mpr ⟨rrfEntryB w t, by simp, by simp [rrfEntryB]⟩
      rw [upsertVec, if_pos hany, List.map_append]
      congr 1
      · rw [List.map_map]
        apply List.map_congr_left
        intro r hr
        show (if ((rrfEntryFull w r).result.doc_id == t.doc_id) = true
          then _ else _) = _
        rw [if_neg (by simpa [rrfEntryFull] using hdone r hr)]
      · rw [List.map_cons, List.map_cons]
        congr 1
        · show (if ((rrfEntryB w t).result.doc_id == t.doc_id) = true
            then _ else _) = _
          rw [if_pos (by simp [rrfEntryB])]
          rfl
        · rw [List.map_map]
          apply List.map_congr_left
          intro r hr
          show (if ((rrfEntryB w r).result.doc_id == t.doc_id) = true
            then _ else _) = _
          rw [if_neg (by simpa [rrfEntryB] using hrest r hr)]
    simp only [List.foldl_cons]
    rw [hstep]
    have harr : done.map (rrfEntryFull w) ++
        (rrfEntryFull w t :: rest.map (rrfEntryB w)) =
        (done ++ [t]).map (rrfEntryFull w) ++ rest.map (rrfEntryB w) := by
      simp
    rw [harr, ih (done ++ [t]) (by simpa [List.append_assoc] using hnodup)]
    simp

/-- Helper: fusing a list of pairwise-distinct results with itself under
equal weights yields one fully weighted entry per result, in list order. -/
theorem rrfCombine_self (w : ℚ) (R : List RankedResult)
    (hnodup : (R.map (fun r => r.doc_id)).Nodup) :
    rrfCombine R R w w = R.map (rrfEntryFull w) := by
  rw [rrfCombine, foldl_upsertBM25_fresh w R [] (by simp) hnodup]
  have h := foldl_upsertVec_update w R [] (by simpa using hnodup)
  simpa using h

/-- C5: reciprocal rank fusion of a ranked list R with itself (the same
ordered list as both inputs) under equal positive weights produces hits
in the same doc_id order as R, provided R's doc_ids are pairwise distinct
and ranks are positional (rank = index + 1, as both searchers assign). -/
theorem rrf_self_fusion (R : List RankedResult) (w : ℚ) (hw : 0 < w)
    (hnodup : (R.map (fun r => r.doc_id)).Nodup)
    (hranks : ∀ p ∈ R.enum, p.2.rank = p.1 + 1) :
    (HybridSearcher.reciprocal_rank_fusion R R w w).map (fun h => h.doc_id) =
      R.map (fun r => r.doc_id) := by
  rw [HybridSearcher.reciprocal_rank_fusion, rrfCombine_self w R hnodup]
  have hsorted : List.Sorted hitLE ((R.map (rrfEntryFull w)).map fusedToHit) := by
    rw [List.map_map, List.Sorted, List.pairwise_map, List.pairwise_iff_get]
    intro i j hij
    show w / (rrfK + ((R.get j).rank : ℚ)) + w / (rrfK + ((R.get j).rank : ℚ)) ≤
      w / (rrfK + ((R.get i).rank : ℚ)) + w / (rrfK + ((R.get i).rank : ℚ))
    rw [rank_of_get R hranks i, rank_of_get R hranks j]
    have hpos : (0 : ℚ) < rrfK + ((i.1 + 1 : Nat) : ℚ) := by
      unfold rrfK
      positivity
    have hcast : ((i.1 : ℚ)) < (j.1 : ℚ) := by
      exact_mod_cast (show i.1 < j.1 from hij)
    have hle : rrfK + ((i.1 + 1 : Nat) : ℚ) ≤ rrfK + ((j.1 + 1 : Nat) : ℚ) := by
      push_cast
      linarith
    have h1 := div_le_div_of_nonneg_left (le_of_lt hw) hpos hle
    exact add_le_add h1 h1
  rw [List.Sorted.insertionSort_eq hsorted]
  rw [List.map_map, List.map_map]
  rfl

/-- Witness for `rrf_self_fusion` on a two-element ranked list with the
default weight 1/2. -/
theorem rrf_self_fusion_witness :
    ((0 : ℚ) < 1/2) ∧
    ((twoRanked.map (fun r => r.doc_id)).Nodup) ∧
    (∀ p ∈ twoRanked.enum, p.2.rank = p.1 + 1) ∧
    ((HybridSearcher.reciprocal_rank_fusion twoRanked twoRanked
        (1/2) (1/2)).map (fun h => h.doc_id) =
      twoRanked.map (fun r => r.doc_id)) :=
  ⟨by simp, by decide, by decide,
    rrf_self_fusion twoRanked (1/2) (by simp) (by decide) (by decide)⟩

end Ygrep

